import Mathlib

/-!
Verification of the multicall library: a shallow embedding of the two source
files (the call construction file with Contract, Call, Pack, Unpack, and the
caller file with Caller.Call, Caller.CallChunked, chunkInputs).

Modelling conventions:
- EVM-level opaque values are modelled as natural numbers (`Value`), encoded
  payloads as lists of naturals (`Bytes`), runtime field types as naturals
  (`FieldType`), addresses as naturals.
- The go-ethereum abi package and the deployed Multicall3 contract are
  external collaborators; they are modelled as an `Env` record of functions
  (abi.Pack, abi.Unpack, abi.ConvertType, the Aggregate3 remote call),
  indexed by an abi identifier where the source holds an `*abi.ABI` pointer.
- Go in-place mutation through `*Call` pointers is modelled by state passing:
  a function that mutates a slice of calls returns the updated list.  Slices
  of the original list alias it, so the chunked driver reassembles the full
  list from chunk results; `time.Sleep` has no observable effect on state and
  is dropped.
- A Go runtime panic (reflection index out of range, ConvertType mismatch)
  is modelled by the `crash` constructor carrying a message that identifies
  the panic site; `err` carries the error value a Go function returns.
-/

namespace Multicall

/-- Opaque decoded EVM value. -/
abbrev Value := Nat

/-- Encoded byte payload. -/
abbrev Bytes := List Nat

/-- Runtime type code of an output struct field. -/
abbrev FieldType := Nat

/-- Contract from call.go: parsed ABI (by identifier) plus target address. -/
structure Contract where
  address : Nat
  abiId : Nat
  deriving DecidableEq

/-- The runtime shape of a `Call.Outputs` destination after pointer
dereference: either not a struct at all, or a struct given by its ordered
fields, each a runtime type code paired with the current field value. -/
inductive OutDest where
  | notStruct : OutDest
  | struct (fields : List (FieldType × Value)) : OutDest
  deriving DecidableEq

/-- Call from call.go. -/
structure Call where
  CallName : String
  Contract : Contract
  Method : String
  Inputs : List Value
  Outputs : OutDest
  CanFail : Bool
  Failed : Bool
  deriving DecidableEq

/-- One entry of the aggregated request (contract.Multicall3Call3). -/
structure Multicall3Call3 where
  Target : Nat
  AllowFailure : Bool
  CallData : Bytes
  deriving DecidableEq

/-- One entry of the aggregated response (contract.Multicall3Result). -/
structure Result3 where
  Success : Bool
  ReturnData : Bytes
  deriving DecidableEq

/-- External collaborators: the abi encode/decode table keyed by abi
identifier and operation name, the abi.ConvertType conversion (`none`
models its panic on an unconvertible pair), and the remote Aggregate3
capability. -/
structure Env where
  abiPack : Nat → String → List Value → Except String Bytes
  abiUnpack : Nat → String → Bytes → Except String (List Value)
  convertType : FieldType → Value → Option Value
  aggregate3 : List Multicall3Call3 → Except String (List Result3)

/-- Result of `Call.Unpack`: the mutated call, a returned error, or a Go
runtime panic. -/
inductive UnpackRes where
  | ok (c : Call)
  | err (msg : String)
  | crash (msg : String)
  deriving DecidableEq

/-- Result of a dispatch: the mutated call list, the (list, error) pair a
Go function returns on failure, or a Go runtime panic. -/
inductive DispatchResult where
  | ok (calls : List Call)
  | err (calls : List Call) (msg : String)
  | crash (msg : String)
  deriving DecidableEq

/-- Panic message for `out[i]` in the Unpack field loop going out of range. -/
def outRangePanicMsg : String := "runtime error: index out of range in decoded outputs"

/-- Panic message for abi.ConvertType / reflect Set on an unconvertible pair. -/
def convertPanicMsg : String := "reflect: cannot convert decoded output to field type"

/-- Panic message for `calls[i]` in the demultiplexing loop going out of range. -/
def callsRangePanicMsg : String := "runtime error: index out of range in calls"

/-- The field-assignment loop of Unpack (call.go lines 132-137): for each
field i in order, read `out[i]` (panic when i is past the end of `out`),
ConvertType it to the field type (panic on mismatch) and store it.  Values
of `out` beyond the field count are never read. -/
def assignFields (env : Env) :
    List (FieldType × Value) → List Value → Except String (List (FieldType × Value))
  | [], _ => .ok []
  | _ :: _, [] => .error outRangePanicMsg
  | (t, _) :: fs, v :: vs =>
    match env.convertType t v with
    | none => .error convertPanicMsg
    | some w =>
      match assignFields env fs vs with
      | .error p => .error p
      | .ok rest => .ok ((t, w) :: rest)

/-- Call.Unpack from call.go: reject a non-struct destination, abi-decode the
payload, then assign decoded values to the struct fields positionally. -/
def Call.Unpack (env : Env) (call : Call) (b : Bytes) : UnpackRes :=
  match call.Outputs with
  | .notStruct => .err "outputs type is not a struct"
  | .struct fields =>
    match env.abiUnpack call.Contract.abiId call.Method b with
    | .error e => .err ("failed to unpack " ++ call.Method ++ " outputs: " ++ e)
    | .ok out =>
      match assignFields env fields out with
      | .error p => .crash p
      | .ok nf => .ok { call with Outputs := .struct nf }

/-- Call.Pack from call.go: abi-encode the inputs, wrapping errors with the
method name. -/
def Call.Pack (env : Env) (call : Call) : Except String Bytes :=
  match env.abiPack call.Contract.abiId call.Method call.Inputs with
  | .error e => .error ("failed to pack " ++ call.Method ++ " inputs: " ++ e)
  | .ok b => .ok b

/-- Error message of Caller.Call for a packing failure at index i. -/
def packIndexErrMsg (i : Nat) (cause : String) : String :=
  "failed to pack call inputs at index [" ++ toString i ++ "]: " ++ cause

/-- Error message of Caller.Call when the Aggregate3 remote call fails. -/
def aggErrMsg (cause : String) : String := "multicall failed: " ++ cause

/-- Error message of Caller.Call for a decode failure at index i. -/
def unpackIndexErrMsg (i : Nat) (cause : String) : String :=
  "failed to unpack call outputs at index [" ++ toString i ++ "]: " ++ cause

/-- Error message of Caller.CallChunked when chunk i fails. -/
def chunkErrMsg (i : Nat) (cause : String) : String :=
  "call chunk [" ++ toString i ++ "] failed: " ++ cause

/-- The packing loop of Caller.Call (first loop): pack each call in input
order into a Multicall3Call3, aborting with the index and cause on the first
failure. -/
def packCalls (env : Env) : List Call → Nat → Except (Nat × String) (List Multicall3Call3)
  | [], _ => .ok []
  | c :: cs, i =>
    match Call.Pack env c with
    | .error e => .error (i, e)
    | .ok b =>
      match packCalls env cs (i + 1) with
      | .error ie => .error ie
      | .ok rest =>
        .ok ({ Target := c.Contract.address, AllowFailure := c.CanFail, CallData := b } :: rest)

/-- The demultiplexing loop of Caller.Call (second loop): iterate over the
response entries, indexing `calls[i]` with no bounds check (panic when the
response is longer than the call list), set the failure flag from the
success flag, skip decoding for failed entries, and abort with an indexed
error on a decode failure. -/
def demux (env : Env) : List Call → List Result3 → Nat → DispatchResult
  | calls, [], _ => .ok calls
  | calls, r :: rs, i =>
    match calls[i]? with
    | none => .crash callsRangePanicMsg
    | some c =>
      let c1 := { c with Failed := !r.Success }
      if c1.Failed then demux env (calls.set i c1) rs (i + 1)
      else
        match Call.Unpack env c1 r.ReturnData with
        | .ok c2 => demux env (calls.set i c2) rs (i + 1)
        | .err m => .err (calls.set i c1) (unpackIndexErrMsg i m)
        | .crash p => .crash p

/-- Caller.Call from the caller file: pack all calls, submit the batch to
Aggregate3, then demultiplex the response into the calls. -/
def Caller.Call (env : Env) (calls : List Call) : DispatchResult :=
  match packCalls env calls 0 with
  | .error (i, e) => .err calls (packIndexErrMsg i e)
  | .ok multiCalls =>
    match env.aggregate3 multiCalls with
    | .error e => .err calls (aggErrMsg e)
    | .ok results => demux env calls results 0

/-- chunkInputs from the caller file: empty input gives no chunks; a
non-positive size, fewer than two inputs, or a size beyond the input length
gives one chunk holding everything; otherwise `len/size` full chunks of
`size` in order, then one remainder chunk of `len % size` when nonzero.
Go slicing `inputs[start:end]` is `(inputs.drop start).take (end - start)`. -/
def chunkInputs (chunkSize : Int) (inputs : List α) : List (List α) :=
  if inputs.length = 0 then []
  else if chunkSize ≤ 0 ∨ inputs.length < 2 ∨ (inputs.length : Int) < chunkSize then [inputs]
  else
    (List.range (inputs.length / chunkSize.toNat)).map
        (fun i => (inputs.drop (i * chunkSize.toNat)).take chunkSize.toNat) ++
      (if 0 < inputs.length % chunkSize.toNat then
        [(inputs.drop (inputs.length / chunkSize.toNat * chunkSize.toNat)).take
          (inputs.length % chunkSize.toNat)]
      else [])

/-- The chunk loop of Caller.CallChunked.  `acc` is the `allCalls`
accumulator.  On a chunk failure the Go source returns the original top
level slice, whose content at that moment is: the mutated results of the
chunks already dispatched, the failing chunk as Caller.Call left it, and
the untouched remaining chunks. -/
def chunkedLoop (env : Env) : List (List Call) → Nat → List Call → DispatchResult
  | [], _, acc => .ok acc
  | ck :: rest, i, acc =>
    match Caller.Call env ck with
    | .ok l => chunkedLoop env rest (i + 1) (acc ++ l)
    | .err l m => .err (acc ++ l ++ rest.flatten) (chunkErrMsg i m)
    | .crash p => .crash p

/-- Caller.CallChunked from the caller file.  The cooldown only sleeps
between dispatches and has no observable effect on the result. -/
def Caller.CallChunked (env : Env) (chunkSize : Int) (_cooldown : Nat)
    (calls : List Multicall.Call) : DispatchResult :=
  chunkedLoop env (chunkInputs chunkSize calls) 0 []

/-- The fields of a call that dispatch never writes: everything except the
failure flag and the output destination.  Two calls related by this
predicate are the same logical unit, before and after in-place mutation. -/
def sameIdentity (c c2 : Call) : Prop :=
  c2.CallName = c.CallName ∧ c2.Contract = c.Contract ∧ c2.Method = c.Method ∧
  c2.Inputs = c.Inputs ∧ c2.CanFail = c.CanFail

/-- Positional identity correspondence between a call list and its mutated
image: same length, and the unit at every position is the same logical unit
(dispatch may only have rewritten its failure flag and output fields). -/
def pointwiseSame (a b : List Call) : Prop :=
  a.length = b.length ∧
  ∀ (j : Nat) (u u2 : Call), a[j]? = some u → b[j]? = some u2 → sameIdentity u u2

/-! Concrete calls and environments used by witnesses and counterexamples. -/

/-- A concrete call with a one-field output destination. -/
def baseCall : Call :=
  { CallName := "a", Contract := ⟨7, 0⟩, Method := "m", Inputs := [1],
    Outputs := .struct [(0, 0)], CanFail := false, Failed := false }

/-- A concrete call with a two-field output destination. -/
def twoFieldCall : Call := { baseCall with Outputs := .struct [(0, 0), (1, 0)] }

/-- Concrete environment where every operation succeeds: packing yields the
payload [9], decoding yields the single value [42], conversion is the
identity, and the remote call answers one successful entry per request
entry. -/
def envHappy : Env :=
  { abiPack := fun _ _ _ => .ok [9]
    abiUnpack := fun _ _ _ => .ok [42]
    convertType := fun _ v => some v
    aggregate3 := fun mcs => .ok (mcs.map (fun _ => ⟨true, []⟩)) }

/-- Environment whose remote aggregation call always fails. -/
def envAggErrW : Env := { envHappy with aggregate3 := fun _ => .error "boom" }

/-- Environment whose abi encoder always fails. -/
def envPackErrW : Env := { envHappy with abiPack := fun _ _ _ => .error "bad input" }

/-- Environment answering every request entry with a failed (success flag
false) entry. -/
def envAllFail : Env :=
  { envHappy with aggregate3 := fun mcs => .ok (mcs.map (fun _ => ⟨false, []⟩)) }

/-- Environment whose remote call succeeds but whose abi decoder fails. -/
def envDecodeErr : Env :=
  { envHappy with abiUnpack := fun _ _ _ => .error "bad" }

/-- Environment answering every request with two entries regardless of the
request length: a response longer than the call list. -/
def envOverflow : Env :=
  { envHappy with aggregate3 := fun _ => .ok [⟨false, []⟩, ⟨false, []⟩] }

/-- Environment answering every request with a single failed entry: a
response shorter than a two-call list. -/
def envUnderflow : Env :=
  { envHappy with aggregate3 := fun _ => .ok [⟨false, []⟩] }

/-- Environment whose abi decoder yields one value. -/
def envOneOut : Env := { envHappy with abiUnpack := fun _ _ _ => .ok [7] }

/-- Environment whose abi decoder yields two values. -/
def envTwoOut : Env := { envHappy with abiUnpack := fun _ _ _ => .ok [7, 8] }

/-- Environment for the chunked counterexample: batches of two entries get a
full-failure answer (which still mutates the units by setting their failure
flags), any other batch size makes the remote call fail. -/
def envChunkTrap : Env :=
  { envHappy with
    aggregate3 := fun mcs =>
      if mcs.length = 2 then .ok (mcs.map (fun _ => ⟨false, []⟩)) else .error "boom" }

/-- Second concrete call, distinct label. -/
def callB : Call := { baseCall with CallName := "b" }

/-- Third concrete call, distinct label. -/
def callC : Call := { baseCall with CallName := "c" }

/-! General lemmas. -/

/-- The packing loop reads only the abi encoder, never the remote
aggregation capability. -/
theorem packCalls_agg_indep (env : Env) (agg : List Multicall3Call3 → Except String (List Result3))
    (cs : List Call) (i : Nat) :
    packCalls { env with aggregate3 := agg } cs i = packCalls env cs i := by
  induction cs generalizing i with
  | nil => rfl
  | cons c cs ih => simp only [packCalls, Call.Pack]; rw [ih]

/-- Flattening the full chunks of width k recovers the first m*k inputs. -/
theorem flatten_range_chunks (l : List α) (k m : Nat) :
    ((List.range m).map (fun i => (l.drop (i * k)).take k)).flatten = l.take (m * k) := by
  induction m with
  | zero => simp
  | succ m ih =>
    rw [List.range_succ, List.map_append, List.flatten_append, ih]
    simp only [List.map_cons, List.map_nil, List.flatten_cons, List.flatten_nil,
      List.append_nil]
    rw [Nat.succ_mul, List.take_add]

/-- Concatenating the chunks returns the input list, for every size. -/
theorem chunkInputs_flatten (chunkSize : Int) (l : List α) :
    (chunkInputs chunkSize l).flatten = l := by
  unfold chunkInputs
  by_cases h0 : l.length = 0
  · rw [if_pos h0]
    simp [List.length_eq_zero.mp h0]
  · rw [if_neg h0]
    by_cases hc : chunkSize ≤ 0 ∨ l.length < 2 ∨ (l.length : Int) < chunkSize
    · rw [if_pos hc]; simp
    · rw [if_neg hc]
      have hk : 0 < chunkSize.toNat := by omega
      rw [List.flatten_append, flatten_range_chunks]
      by_cases hm : 0 < l.length % chunkSize.toNat
      · rw [if_pos hm]
        simp only [List.flatten_cons, List.flatten_nil, List.append_nil]
        rw [← List.take_add]
        have hcomm : l.length / chunkSize.toNat * chunkSize.toNat
            = chunkSize.toNat * (l.length / chunkSize.toNat) := Nat.mul_comm _ _
        have : l.length / chunkSize.toNat * chunkSize.toNat + l.length % chunkSize.toNat
            = l.length := by
          have := Nat.div_add_mod l.length chunkSize.toNat
          omega
        rw [this, List.take_length]
      · rw [if_neg hm]
        simp only [List.flatten_nil, List.append_nil]
        have hcomm : l.length / chunkSize.toNat * chunkSize.toNat
            = chunkSize.toNat * (l.length / chunkSize.toNat) := Nat.mul_comm _ _
        have : l.length / chunkSize.toNat * chunkSize.toNat = l.length := by
          have := Nat.div_add_mod l.length chunkSize.toNat
          omega
        rw [this, List.take_length]

/-- Step equation of the demultiplexing loop for a failed entry. -/
theorem demux_step_failed (env : Env) (calls : List Call) (r : Result3) (rs : List Result3)
    (i : Nat) (c : Call) (hc : calls[i]? = some c) (hS : r.Success = false) :
    demux env calls (r :: rs) i
      = demux env (calls.set i { c with Failed := true }) rs (i + 1) := by
  simp [demux, hc, hS]

/-- Step equation of the loop for a successful entry whose decode succeeds. -/
theorem demux_step_ok (env : Env) (calls : List Call) (r : Result3) (rs : List Result3)
    (i : Nat) (c c2 : Call) (hc : calls[i]? = some c) (hS : r.Success = true)
    (hup : Call.Unpack env { c with Failed := false } r.ReturnData = .ok c2) :
    demux env calls (r :: rs) i = demux env (calls.set i c2) rs (i + 1) := by
  simp [demux, hc, hS, hup]

/-- Step equation of the loop for a successful entry whose decode fails. -/
theorem demux_step_err (env : Env) (calls : List Call) (r : Result3) (rs : List Result3)
    (i : Nat) (c : Call) (m : String) (hc : calls[i]? = some c) (hS : r.Success = true)
    (hup : Call.Unpack env { c with Failed := false } r.ReturnData = .err m) :
    demux env calls (r :: rs) i
      = .err (calls.set i { c with Failed := false }) (unpackIndexErrMsg i m) := by
  simp [demux, hc, hS, hup]

/-- Step equation of the loop for a successful entry whose decode panics. -/
theorem demux_step_crash (env : Env) (calls : List Call) (r : Result3) (rs : List Result3)
    (i : Nat) (c : Call) (p : String) (hc : calls[i]? = some c) (hS : r.Success = true)
    (hup : Call.Unpack env { c with Failed := false } r.ReturnData = .crash p) :
    demux env calls (r :: rs) i = .crash p := by
  simp [demux, hc, hS, hup]

/-- Step equation of the loop when the index is out of range. -/
theorem demux_step_oob (env : Env) (calls : List Call) (r : Result3) (rs : List Result3)
    (i : Nat) (hc : calls[i]? = none) :
    demux env calls (r :: rs) i = .crash callsRangePanicMsg := by
  simp [demux, hc]

/-- The field-assignment loop panics only with one of its two panic kinds. -/
theorem assignFields_error_msg (env : Env) :
    ∀ (fs : List (FieldType × Value)) (vs : List Value) (p : String),
      assignFields env fs vs = .error p → p = outRangePanicMsg ∨ p = convertPanicMsg := by
  intro fs
  induction fs with
  | nil => intro vs p h; simp [assignFields] at h
  | cons f fs ih =>
    intro vs p h
    obtain ⟨t, w0⟩ := f
    cases vs with
    | nil =>
      simp only [assignFields, Except.error.injEq] at h
      exact Or.inl h.symm
    | cons v vs =>
      cases hcv : env.convertType t v with
      | none =>
        simp only [assignFields, hcv, Except.error.injEq] at h
        exact Or.inr h.symm
      | some w =>
        cases hrec : assignFields env fs vs with
        | error p2 =>
          simp only [assignFields, hcv, hrec, Except.error.injEq] at h
          exact h ▸ ih vs p2 hrec
        | ok rest => simp [assignFields, hcv, hrec] at h

/-- Call.Unpack panics only with one of the two field-assignment panic
kinds, never with the demultiplexing loop index panic. -/
theorem unpack_crash_msg (env : Env) (c : Call) (b : Bytes) (p : String)
    (h : Call.Unpack env c b = .crash p) :
    p = outRangePanicMsg ∨ p = convertPanicMsg := by
  cases ho : c.Outputs with
  | notStruct => simp [Call.Unpack, ho] at h
  | struct fields =>
    cases hu : env.abiUnpack c.Contract.abiId c.Method b with
    | error e => simp [Call.Unpack, ho, hu] at h
    | ok out =>
      cases ha : assignFields env fields out with
      | error p2 =>
        simp only [Call.Unpack, ho, hu, ha, UnpackRes.crash.injEq] at h
        exact h ▸ assignFields_error_msg env fields out p2 ha
      | ok nf => simp [Call.Unpack, ho, hu, ha] at h

/-- Within the response range, the demultiplexing loop never raises its
own index panic. -/
theorem demux_no_oob (env : Env) :
    ∀ (rs : List Result3) (i : Nat) (calls : List Call),
      i + rs.length ≤ calls.length →
      demux env calls rs i ≠ .crash callsRangePanicMsg := by
  intro rs
  induction rs with
  | nil => intro i calls _; simp [demux]
  | cons r rs ih =>
    intro i calls hlen
    have hlc : i < calls.length := by simp only [List.length_cons] at hlen; omega
    obtain ⟨c, hc⟩ : ∃ c, calls[i]? = some c := ⟨_, List.getElem?_eq_getElem hlc⟩
    cases hS : r.Success
    case false =>
      rw [demux_step_failed env calls r rs i c hc hS]
      exact ih (i + 1) _
        (by rw [List.length_set]; simp only [List.length_cons] at hlen; omega)
    case true =>
      cases hup : Call.Unpack env { c with Failed := false } r.ReturnData with
      | ok c2 =>
        rw [demux_step_ok env calls r rs i c c2 hc hS hup]
        exact ih (i + 1) _
          (by rw [List.length_set]; simp only [List.length_cons] at hlen; omega)
      | err m => rw [demux_step_err env calls r rs i c m hc hS hup]; simp
      | crash p =>
        rw [demux_step_crash env calls r rs i c p hc hS hup]
        intro hcontra
        simp only [DispatchResult.crash.injEq] at hcontra
        rcases unpack_crash_msg env _ _ _ hup with h | h <;>
          (rw [h] at hcontra; exact absurd hcontra (by decide))

/-- Units at positions outside the response range are left untouched by a
completed demultiplexing loop. -/
theorem demux_ok_frame (env : Env) :
    ∀ (rs : List Result3) (i : Nat) (calls l : List Call),
      demux env calls rs i = .ok l →
      ∀ j, j < i ∨ i + rs.length ≤ j → l[j]? = calls[j]? := by
  intro rs
  induction rs with
  | nil =>
    intro i calls l h j _
    simp only [demux, DispatchResult.ok.injEq] at h
    rw [h]
  | cons r rs ih =>
    intro i calls l h j hj
    simp only [List.length_cons] at hj
    rcases hcg : calls[i]? with _ | c
    · rw [demux_step_oob env calls r rs i hcg] at h; simp at h
    · cases hS : r.Success
      case false =>
        rw [demux_step_failed env calls r rs i c hcg hS] at h
        rw [ih (i + 1) _ l h j (by omega), List.getElem?_set_ne (by omega)]
      case true =>
        cases hup : Call.Unpack env { c with Failed := false } r.ReturnData with
        | ok c2 =>
          rw [demux_step_ok env calls r rs i c c2 hcg hS hup] at h
          rw [ih (i + 1) _ l h j (by omega), List.getElem?_set_ne (by omega)]
        | err m => rw [demux_step_err env calls r rs i c m hcg hS hup] at h; simp at h
        | crash p => rw [demux_step_crash env calls r rs i c p hcg hS hup] at h; simp at h

/-- Full characterization of a completed demultiplexing loop: when the
response fits in the remaining units and every successful entry decodes,
the loop returns success, failed entries get their failure flag set with
their output destination untouched, successful entries get their decoded
outputs, and everything outside the response range is untouched. -/
theorem demux_ok_of_decodable (env : Env) :
    ∀ (rs : List Result3) (i : Nat) (calls : List Call),
      i + rs.length ≤ calls.length →
      (∀ j r c, rs[j]? = some r → calls[i + j]? = some c → r.Success = true →
        ∃ c2, Call.Unpack env { c with Failed := false } r.ReturnData = .ok c2) →
      ∃ l, demux env calls rs i = .ok l ∧ l.length = calls.length ∧
        (∀ j, j < i ∨ i + rs.length ≤ j → l[j]? = calls[j]?) ∧
        (∀ j r c, rs[j]? = some r → calls[i + j]? = some c →
          (r.Success = false → l[i + j]? = some { c with Failed := true }) ∧
          (r.Success = true → ∀ c2,
            Call.Unpack env { c with Failed := false } r.ReturnData = .ok c2 →
            l[i + j]? = some c2)) := by
  intro rs
  induction rs with
  | nil =>
    intro i calls _ _
    refine ⟨calls, rfl, rfl, fun _ _ => rfl, ?_⟩
    intro j r c hr
    simp at hr
  | cons r rs ih =>
    intro i calls hlen hdec
    simp only [List.length_cons] at hlen
    have hlc : i < calls.length := by omega
    obtain ⟨c, hc⟩ : ∃ c, calls[i]? = some c := ⟨_, List.getElem?_eq_getElem hlc⟩
    cases hS : r.Success
    case false =>
      have hstep := demux_step_failed env calls r rs i c hc hS
      have hlen2 : (i + 1) + rs.length ≤ (calls.set i { c with Failed := true }).length := by
        rw [List.length_set]; omega
      have hdec2 : ∀ j r2 u, rs[j]? = some r2 →
          (calls.set i { c with Failed := true })[(i + 1) + j]? = some u →
          r2.Success = true →
          ∃ u2, Call.Unpack env { u with Failed := false } r2.ReturnData = .ok u2 := by
        intro j r2 u hr2 hu hS2
        rw [List.getElem?_set_ne (by omega)] at hu
        have hidx : (i + 1) + j = i + (j + 1) := by omega
        rw [hidx] at hu
        exact hdec (j + 1) r2 u (by simpa using hr2) hu hS2
      obtain ⟨l, hdm, hll, hfr, hun⟩ := ih (i + 1) _ hlen2 hdec2
      refine ⟨l, by rw [hstep]; exact hdm, by rw [hll, List.length_set], ?_, ?_⟩
      · intro j hj
        simp only [List.length_cons] at hj
        rw [hfr j (by omega), List.getElem?_set_ne (by omega)]
      · intro j r2 u hr2 hu
        cases j with
        | zero =>
          rw [Nat.add_zero] at hu
          rw [hc] at hu
          have hr0 : r2 = r := by simpa using hr2.symm
          have hu0 : u = c := by simpa using hu.symm
          subst hr0; subst hu0
          constructor
          · intro _
            rw [Nat.add_zero, hfr i (by omega), List.getElem?_set_self hlc]
          · intro hS2
            rw [hS] at hS2; cases hS2
        | succ j =>
          have hidx : i + (j + 1) = (i + 1) + j := by omega
          rw [hidx]
          refine hun j r2 u (by simpa using hr2) ?_
          rw [List.getElem?_set_ne (by omega), ← hidx]
          exact hu
    case true =>
      obtain ⟨c2, hup⟩ := hdec 0 r c (by simp) (by rw [Nat.add_zero]; exact hc) hS
      have hstep := demux_step_ok env calls r rs i c c2 hc hS hup
      have hlen2 : (i + 1) + rs.length ≤ (calls.set i c2).length := by
        rw [List.length_set]; omega
      have hdec2 : ∀ j r2 u, rs[j]? = some r2 →
          (calls.set i c2)[(i + 1) + j]? = some u → r2.Success = true →
          ∃ u2, Call.Unpack env { u with Failed := false } r2.ReturnData = .ok u2 := by
        intro j r2 u hr2 hu hS2
        rw [List.getElem?_set_ne (by omega)] at hu
        have hidx : (i + 1) + j = i + (j + 1) := by omega
        rw [hidx] at hu
        exact hdec (j + 1) r2 u (by simpa using hr2) hu hS2
      obtain ⟨l, hdm, hll, hfr, hun⟩ := ih (i + 1) _ hlen2 hdec2
      refine ⟨l, by rw [hstep]; exact hdm, by rw [hll, List.length_set], ?_, ?_⟩
      · intro j hj
        simp only [List.length_cons] at hj
        rw [hfr j (by omega), List.getElem?_set_ne (by omega)]
      · intro j r2 u hr2 hu
        cases j with
        | zero =>
          rw [Nat.add_zero] at hu
          rw [hc] at hu
          have hr0 : r2 = r := by simpa using hr2.symm
          have hu0 : u = c := by simpa using hu.symm
          subst hr0; subst hu0
          constructor
          · intro hS2
            rw [hS] at hS2; cases hS2
          · intro _ u2 hup2
            have : u2 = c2 := by
              rw [hup] at hup2
              simpa using hup2.symm
            subst this
            rw [Nat.add_zero, hfr i (by omega), List.getElem?_set_self hlc]
        | succ j =>
          have hidx : i + (j + 1) = (i + 1) + j := by omega
          rw [hidx]
          refine hun j r2 u (by simpa using hr2) ?_
          rw [List.getElem?_set_ne (by omega), ← hidx]
          exact hu

/-- Characterization of the demultiplexing loop aborting at the first
decode failure: the loop returns the indexed decode error, entries before
the failing index keep their applied mutations, the failing unit has its
failure flag cleared and its outputs untouched, and entries after the
failing index are untouched. -/
theorem demux_err_at (env : Env) :
    ∀ (rs : List Result3) (j i : Nat) (calls : List Call) (r : Result3) (c : Call) (m : String),
      i + rs.length ≤ calls.length →
      rs[j]? = some r → r.Success = true →
      calls[i + j]? = some c →
      Call.Unpack env { c with Failed := false } r.ReturnData = .err m →
      (∀ j2 r2 u, j2 < j → rs[j2]? = some r2 → calls[i + j2]? = some u → r2.Success = true →
        ∃ u2, Call.Unpack env { u with Failed := false } r2.ReturnData = .ok u2) →
      ∃ l, demux env calls rs i = .err l (unpackIndexErrMsg (i + j) m) ∧
        l.length = calls.length ∧
        (∀ j2, j2 < i ∨ i + j < j2 → l[j2]? = calls[j2]?) ∧
        l[i + j]? = some { c with Failed := false } ∧
        (∀ j2 r2 u, j2 < j → rs[j2]? = some r2 → calls[i + j2]? = some u →
          (r2.Success = false → l[i + j2]? = some { u with Failed := true }) ∧
          (r2.Success = true → ∀ u2,
            Call.Unpack env { u with Failed := false } r2.ReturnData = .ok u2 →
            l[i + j2]? = some u2)) := by
  intro rs
  induction rs with
  | nil => intro j i calls r c m _ hr; simp at hr
  | cons r0 rs ih =>
    intro j i calls r c m hlen hr hS hc hup hprev
    simp only [List.length_cons] at hlen
    cases j with
    | zero =>
      have hr0 : r0 = r := by simpa using hr
      rw [Nat.add_zero] at hc ⊢
      subst hr0
      have hlc : i < calls.length := by omega
      have hstep := demux_step_err env calls r0 rs i c m hc hS hup
      refine ⟨calls.set i { c with Failed := false }, hstep, by rw [List.length_set],
        ?_, ?_, ?_⟩
      · intro j2 hj2; rw [List.getElem?_set_ne (by omega)]
      · exact List.getElem?_set_self hlc
      · intro j2 r2 u hj2 _; exact absurd hj2 (by omega)
    | succ j =>
      have hlc : i < calls.length := by omega
      obtain ⟨c0, hc0⟩ : ∃ u, calls[i]? = some u := ⟨_, List.getElem?_eq_getElem hlc⟩
      have hidx : i + (j + 1) = (i + 1) + j := by omega
      cases hS0 : r0.Success
      case false =>
        have hstep := demux_step_failed env calls r0 rs i c0 hc0 hS0
        obtain ⟨l, hdm, hll, hfr, hfail, hun⟩ :=
          ih j (i + 1) (calls.set i { c0 with Failed := true }) r c m
            (by rw [List.length_set]; omega)
            (by simpa using hr)
            hS
            (by rw [List.getElem?_set_ne (by omega), ← hidx]; exact hc)
            hup
            (by intro j2 r2 u hj2 hr2 hu hS2
                rw [List.getElem?_set_ne (by omega)] at hu
                have hidx2 : (i + 1) + j2 = i + (j2 + 1) := by omega
                rw [hidx2] at hu
                exact hprev (j2 + 1) r2 u (by omega) (by simpa using hr2) hu hS2)
        refine ⟨l, ?_, by rw [hll, List.length_set], ?_, ?_, ?_⟩
        · rw [hstep, hidx]; exact hdm
        · intro j2 hj2
          rw [hfr j2 (by omega), List.getElem?_set_ne (by omega)]
        · rw [hidx]; exact hfail
        · intro j2 r2 u hj2 hr2 hu
          cases j2 with
          | zero =>
            have hr20 : r2 = r0 := by simpa using hr2.symm
            rw [Nat.add_zero] at hu
            rw [hc0] at hu
            have hu0 : u = c0 := by simpa using hu.symm
            subst hr20; subst hu0
            constructor
            · intro _
              rw [Nat.add_zero, hfr i (by omega), List.getElem?_set_self hlc]
            · intro hS2; rw [hS0] at hS2; cases hS2
          | succ j2 =>
            have hidx2 : i + (j2 + 1) = (i + 1) + j2 := by omega
            rw [hidx2]
            refine hun j2 r2 u (by omega) (by simpa using hr2) ?_
            rw [List.getElem?_set_ne (by omega), ← hidx2]; exact hu
      case true =>
        obtain ⟨c2, hup0⟩ :=
          hprev 0 r0 c0 (by omega) (by simp) (by rw [Nat.add_zero]; exact hc0) hS0
        have hstep := demux_step_ok env calls r0 rs i c0 c2 hc0 hS0 hup0
        obtain ⟨l, hdm, hll, hfr, hfail, hun⟩ :=
          ih j (i + 1) (calls.set i c2) r c m
            (by rw [List.length_set]; omega)
            (by simpa using hr)
            hS
            (by rw [List.getElem?_set_ne (by omega), ← hidx]; exact hc)
            hup
            (by intro j2 r2 u hj2 hr2 hu hS2
                rw [List.getElem?_set_ne (by omega)] at hu
                have hidx2 : (i + 1) + j2 = i + (j2 + 1) := by omega
                rw [hidx2] at hu
                exact hprev (j2 + 1) r2 u (by omega) (by simpa using hr2) hu hS2)
        refine ⟨l, ?_, by rw [hll, List.length_set], ?_, ?_, ?_⟩
        · rw [hstep, hidx]; exact hdm
        · intro j2 hj2
          rw [hfr j2 (by omega), List.getElem?_set_ne (by omega)]
        · rw [hidx]; exact hfail
        · intro j2 r2 u hj2 hr2 hu
          cases j2 with
          | zero =>
            have hr20 : r2 = r0 := by simpa using hr2.symm
            rw [Nat.add_zero] at hu
            rw [hc0] at hu
            have hu0 : u = c0 := by simpa using hu.symm
            subst hr20; subst hu0
            constructor
            · intro hS2; rw [hS0] at hS2; cases hS2
            · intro _ u2 hup2
              have : u2 = c2 := by rw [hup0] at hup2; simpa using hup2.symm
              subst this
              rw [Nat.add_zero, hfr i (by omega), List.getElem?_set_self hlc]
          | succ j2 =>
            have hidx2 : i + (j2 + 1) = (i + 1) + j2 := by omega
            rw [hidx2]
            refine hun j2 r2 u (by omega) (by simpa using hr2) ?_
            rw [List.getElem?_set_ne (by omega), ← hidx2]; exact hu

/-- Rewriting only the failure flag preserves the unit identity. -/
theorem sameIdentity_of_setFailed (c : Call) (b : Bool) :
    sameIdentity c { c with Failed := b } :=
  ⟨rfl, rfl, rfl, rfl, rfl⟩

/-- Unit identity is reflexive. -/
theorem sameIdentity_refl (c : Call) : sameIdentity c c :=
  ⟨rfl, rfl, rfl, rfl, rfl⟩

/-- Unit identity is transitive. -/
theorem sameIdentity_trans {a b c : Call} (h1 : sameIdentity a b) (h2 : sameIdentity b c) :
    sameIdentity a c :=
  ⟨h2.1.trans h1.1, h2.2.1.trans h1.2.1, h2.2.2.1.trans h1.2.2.1,
   h2.2.2.2.1.trans h1.2.2.2.1, h2.2.2.2.2.trans h1.2.2.2.2⟩

/-- A successful Unpack rewrites only the output destination. -/
theorem unpack_ok_sameIdentity (env : Env) (c c2 : Call) (b : Bytes)
    (h : Call.Unpack env c b = .ok c2) : sameIdentity c c2 := by
  cases ho : c.Outputs with
  | notStruct => simp [Call.Unpack, ho] at h
  | struct fields =>
    cases hu : env.abiUnpack c.Contract.abiId c.Method b with
    | error e => simp [Call.Unpack, ho, hu] at h
    | ok out =>
      cases ha : assignFields env fields out with
      | error p => simp [Call.Unpack, ho, hu, ha] at h
      | ok nf =>
        simp only [Call.Unpack, ho, hu, ha, UnpackRes.ok.injEq] at h
        rw [← h]
        exact ⟨rfl, rfl, rfl, rfl, rfl⟩

/-- Positional identity is reflexive. -/
theorem pointwiseSame_refl (a : List Call) : pointwiseSame a a := by
  refine ⟨rfl, ?_⟩
  intro j u u2 h1 h2
  rw [h1] at h2
  injection h2 with h2
  rw [h2]
  exact sameIdentity_refl u2

/-- Positional identity is transitive. -/
theorem pointwiseSame_trans {a b c : List Call}
    (h1 : pointwiseSame a b) (h2 : pointwiseSame b c) : pointwiseSame a c := by
  obtain ⟨hl1, hp1⟩ := h1
  obtain ⟨hl2, hp2⟩ := h2
  refine ⟨hl1.trans hl2, ?_⟩
  intro j u u2 ha hc
  have hj : j < b.length := by
    obtain ⟨hja, _⟩ := List.getElem?_eq_some.mp ha
    omega
  obtain ⟨v, hb⟩ : ∃ v, b[j]? = some v := ⟨_, List.getElem?_eq_getElem hj⟩
  exact sameIdentity_trans (hp1 j u v ha hb) (hp2 j v u2 hb hc)

/-- Overwriting one position with an identity-preserving unit keeps the
positional identity correspondence. -/
theorem pointwiseSame_set (a : List Call) (i : Nat) (c c2 : Call)
    (hc : a[i]? = some c) (hs : sameIdentity c c2) : pointwiseSame a (a.set i c2) := by
  have hia : i < a.length := by
    obtain ⟨h, _⟩ := List.getElem?_eq_some.mp hc
    exact h
  refine ⟨(List.length_set a i c2).symm, ?_⟩
  intro j u u2 h1 h2
  by_cases hij : i = j
  · subst hij
    rw [List.getElem?_set_self hia] at h2
    rw [hc] at h1
    injection h1 with h1
    injection h2 with h2
    rw [← h1, ← h2]
    exact hs
  · rw [List.getElem?_set_ne hij] at h2
    rw [h1] at h2
    injection h2 with h2
    rw [h2]
    exact sameIdentity_refl u2

/-- Positional identity is closed under appending. -/
theorem pointwiseSame_append {a b a2 b2 : List Call}
    (h1 : pointwiseSame a b) (h2 : pointwiseSame a2 b2) :
    pointwiseSame (a ++ a2) (b ++ b2) := by
  obtain ⟨hl1, hp1⟩ := h1
  obtain ⟨hl2, hp2⟩ := h2
  refine ⟨by simp [hl1, hl2], ?_⟩
  intro j u u2 hu hu2
  rw [List.getElem?_append] at hu hu2
  by_cases hj : j < a.length
  · rw [if_pos hj] at hu
    rw [if_pos (by omega)] at hu2
    exact hp1 j u u2 hu hu2
  · rw [if_neg hj] at hu
    rw [if_neg (by omega)] at hu2
    have hidx : j - b.length = j - a.length := by omega
    rw [hidx] at hu2
    exact hp2 _ u u2 hu hu2

/-- Whether the demultiplexing loop completes or aborts with an indexed
decode error, the list it carries is the original list with only failure
flags and output fields rewritten. -/
theorem demux_pointwiseSame (env : Env) :
    ∀ (rs : List Result3) (i : Nat) (calls l : List Call),
      (demux env calls rs i = .ok l ∨ ∃ m, demux env calls rs i = .err l m) →
      pointwiseSame calls l := by
  intro rs
  induction rs with
  | nil =>
    intro i calls l h
    rcases h with h | ⟨m, h⟩
    · simp only [demux, DispatchResult.ok.injEq] at h
      rw [← h]
      exact pointwiseSame_refl _
    · simp [demux] at h
  | cons r rs ih =>
    intro i calls l h
    rcases hcg : calls[i]? with _ | c
    · rcases h with h | ⟨m, h⟩ <;> (rw [demux_step_oob env calls r rs i hcg] at h; simp at h)
    · cases hS : r.Success
      case false =>
        have hstep := demux_step_failed env calls r rs i c hcg hS
        refine pointwiseSame_trans
          (pointwiseSame_set calls i c _ hcg (sameIdentity_of_setFailed c true))
          (ih (i + 1) _ l ?_)
        rcases h with h | ⟨m, h⟩
        · rw [hstep] at h; exact Or.inl h
        · rw [hstep] at h; exact Or.inr ⟨m, h⟩
      case true =>
        cases hup : Call.Unpack env { c with Failed := false } r.ReturnData with
        | ok c2 =>
          have hstep := demux_step_ok env calls r rs i c c2 hcg hS hup
          have hs : sameIdentity c c2 :=
            sameIdentity_trans (sameIdentity_of_setFailed c false)
              (unpack_ok_sameIdentity env _ c2 r.ReturnData hup)
          refine pointwiseSame_trans (pointwiseSame_set calls i c c2 hcg hs)
            (ih (i + 1) _ l ?_)
          rcases h with h | ⟨m, h⟩
          · rw [hstep] at h; exact Or.inl h
          · rw [hstep] at h; exact Or.inr ⟨m, h⟩
        | err m2 =>
          have hstep := demux_step_err env calls r rs i c m2 hcg hS hup
          rcases h with h | ⟨m, h⟩
          · rw [hstep] at h; simp at h
          · rw [hstep] at h
            simp only [DispatchResult.err.injEq] at h
            rw [← h.1]
            exact pointwiseSame_set calls i c _ hcg (sameIdentity_of_setFailed c false)
        | crash p =>
          have hstep := demux_step_crash env calls r rs i c p hcg hS hup
          rcases h with h | ⟨m, h⟩ <;> (rw [hstep] at h; simp at h)

/-- Whatever a single dispatch returns, success or error, the list it
carries is the original unit list with only failure flags and output
fields rewritten. -/
theorem callResult_pointwiseSame (env : Env) (calls l : List Call)
    (h : Caller.Call env calls = .ok l ∨ ∃ m, Caller.Call env calls = .err l m) :
    pointwiseSame calls l := by
  cases hpack : packCalls env calls 0 with
  | error ie =>
    obtain ⟨i, e⟩ := ie
    rcases h with h | ⟨m, h⟩
    · simp [Caller.Call, hpack] at h
    · simp only [Caller.Call, hpack, DispatchResult.err.injEq] at h
      rw [← h.1]
      exact pointwiseSame_refl _
  | ok mcs =>
    cases hagg : env.aggregate3 mcs with
    | error e =>
      rcases h with h | ⟨m, h⟩
      · simp [Caller.Call, hpack, hagg] at h
      · simp only [Caller.Call, hpack, hagg, DispatchResult.err.injEq] at h
        rw [← h.1]
        exact pointwiseSame_refl _
    | ok rs =>
      refine demux_pointwiseSame env rs 0 calls l ?_
      rcases h with h | ⟨m, h⟩
      · simp only [Caller.Call, hpack, hagg] at h
        exact Or.inl h
      · simp only [Caller.Call, hpack, hagg] at h
        exact Or.inr ⟨m, h⟩

/-- When every chunk dispatch succeeds, the chunk loop returns the
accumulator followed by the concatenated chunk results. -/
theorem chunkedLoop_ok_results (env : Env) (chunks results : List (List Call))
    (h : List.Forall₂ (fun ck l => Caller.Call env ck = .ok l) chunks results) :
    ∀ (i0 : Nat) (acc : List Call),
      chunkedLoop env chunks i0 acc = .ok (acc ++ results.flatten) := by
  induction h with
  | nil => intro i0 acc; simp [chunkedLoop]
  | cons h1 h2 ih =>
    intro i0 acc
    simp only [chunkedLoop, h1]
    rw [ih (i0 + 1) _]
    simp [List.append_assoc]

/-- Pairwise successful dispatches preserve positional identity between the
concatenated chunks and the concatenated results. -/
theorem forall2_ok_pointwiseSame (env : Env) (chunks results : List (List Call))
    (h : List.Forall₂ (fun ck l => Caller.Call env ck = .ok l) chunks results) :
    pointwiseSame chunks.flatten results.flatten := by
  induction h with
  | nil => exact pointwiseSame_refl _
  | cons h1 h2 ih =>
    rw [List.flatten_cons, List.flatten_cons]
    exact pointwiseSame_append (callResult_pointwiseSame env _ _ (Or.inl h1)) ih

/-- Characterization of the chunk loop aborting at the first failing chunk:
the loop returns the accumulator followed by the current content of the
original list, and the error names the failing chunk index. -/
theorem chunkedLoop_err_at (env : Env) :
    ∀ (chunks : List (List Call)) (j : Nat) (ck l : List Call) (m : String),
      chunks[j]? = some ck →
      (∀ j2 ck2, j2 < j → chunks[j2]? = some ck2 → ∃ l2, Caller.Call env ck2 = .ok l2) →
      Caller.Call env ck = .err l m →
      ∀ (i0 : Nat) (acc : List Call),
        ∃ L, chunkedLoop env chunks i0 acc = .err (acc ++ L) (chunkErrMsg (i0 + j) m) ∧
          pointwiseSame chunks.flatten L := by
  intro chunks
  induction chunks with
  | nil => intro j ck l m hj; simp at hj
  | cons ck0 rest ih =>
    intro j ck l m hj hprev herr i0 acc
    cases j with
    | zero =>
      have hck0 : ck0 = ck := by simpa using hj
      subst hck0
      refine ⟨l ++ rest.flatten, ?_, ?_⟩
      · simp only [chunkedLoop, herr]
        rw [Nat.add_zero, List.append_assoc]
      · rw [List.flatten_cons]
        exact pointwiseSame_append
          (callResult_pointwiseSame env ck0 l (Or.inr ⟨m, herr⟩)) (pointwiseSame_refl _)
    | succ j =>
      obtain ⟨l2, hok⟩ := hprev 0 ck0 (by omega) (by simp)
      obtain ⟨L2, hloop, hps⟩ := ih j ck l m (by simpa using hj)
        (by intro j2 ck2 hj2 hck2
            exact hprev (j2 + 1) ck2 (by omega) (by simpa using hck2))
        herr (i0 + 1) (acc ++ l2)
      refine ⟨l2 ++ L2, ?_, ?_⟩
      · simp only [chunkedLoop, hok]
        have hidx : i0 + (j + 1) = (i0 + 1) + j := by omega
        rw [hidx, ← List.append_assoc]
        exact hloop
      · rw [List.flatten_cons]
        exact pointwiseSame_append (callResult_pointwiseSame env ck0 l2 (Or.inl hok)) hps

/-- With convertible values, the field-assignment loop panics out of range
as soon as the fields outnumber the decoded values. -/
theorem assignFields_short (env : Env)
    (hconv : ∀ t v, (env.convertType t v).isSome = true) :
    ∀ (fs : List (FieldType × Value)) (vs : List Value), vs.length < fs.length →
      assignFields env fs vs = .error outRangePanicMsg := by
  intro fs
  induction fs with
  | nil => intro vs h; simp at h
  | cons f fs ih =>
    intro vs h
    obtain ⟨t, w0⟩ := f
    cases vs with
    | nil => rfl
    | cons v vs =>
      obtain ⟨w, hw⟩ := Option.isSome_iff_exists.mp (hconv t v)
      have hrec := ih vs (by simp only [List.length_cons] at h; omega)
      simp [assignFields, hw, hrec]

/-- With convertible values and at least as many decoded values as fields,
the field-assignment loop succeeds, writing exactly one value per field and
never reading the excess decoded values. -/
theorem assignFields_long (env : Env)
    (hconv : ∀ t v, (env.convertType t v).isSome = true) :
    ∀ (fs : List (FieldType × Value)) (vs : List Value), fs.length ≤ vs.length →
      ∃ nf, assignFields env fs vs = .ok nf ∧ nf.length = fs.length := by
  intro fs
  induction fs with
  | nil => intro vs _; exact ⟨[], rfl, rfl⟩
  | cons f fs ih =>
    intro vs h
    obtain ⟨t, w0⟩ := f
    cases vs with
    | nil => simp at h
    | cons v vs =>
      obtain ⟨w, hw⟩ := Option.isSome_iff_exists.mp (hconv t v)
      obtain ⟨nf, hnf, hlen⟩ := ih vs (by simp only [List.length_cons] at h; omega)
      exact ⟨(t, w) :: nf, by simp [assignFields, hw, hnf], by simp [hlen]⟩

/-! Claim theorems. -/

/-- C8: the Chunker returns an empty result for an empty unit list; for a
non-empty list with non-positive size, fewer than two units, or size beyond
the list length, it returns exactly one chunk equal to the whole input. -/
theorem chunkInputs_trivial_cases (chunkSize : Int) (inputs : List α) :
    chunkInputs chunkSize ([] : List α) = [] ∧
    (inputs ≠ [] →
      (chunkSize ≤ 0 ∨ inputs.length < 2 ∨ (inputs.length : Int) < chunkSize) →
      chunkInputs chunkSize inputs = [inputs]) := by
  constructor
  · simp [chunkInputs]
  · intro hne hcond
    unfold chunkInputs
    rw [if_neg (by simpa using hne), if_pos hcond]

/-- Witness for C8 at size 5 with the empty list and the list [42]. -/
theorem chunkInputs_trivial_cases_witness :
    chunkInputs 5 ([] : List Nat) = [] ∧ chunkInputs 5 [42] = [[42]] :=
  ⟨(chunkInputs_trivial_cases 5 ([42] : List Nat)).1,
   (chunkInputs_trivial_cases 5 ([42] : List Nat)).2 (by decide) (by decide)⟩

/-- C5: when the remote aggregation call itself fails, Caller.Call returns
the original unit list unmodified together with the wrapping error. -/
theorem call_aggregate_failure_returns_unmodified (env : Env) (calls : List Call)
    (mcs : List Multicall3Call3) (e : String)
    (hpack : packCalls env calls 0 = .ok mcs)
    (hagg : env.aggregate3 mcs = .error e) :
    Caller.Call env calls = .err calls (aggErrMsg e) := by
  simp only [Caller.Call, hpack, hagg]

/-- Witness for C5 on one concrete call against the failing aggregator. -/
theorem call_aggregate_failure_returns_unmodified_witness :
    Caller.Call envAggErrW [baseCall] = .err [baseCall] (aggErrMsg "boom") :=
  call_aggregate_failure_returns_unmodified envAggErrW [baseCall]
    [{ Target := 7, AllowFailure := false, CallData := [9] }] "boom" rfl rfl

/-- C6: when the packing loop fails at index i, Caller.Call aborts with an
error naming index i and the cause, returns the unit list unmodified, and
the outcome is the same whatever the remote aggregation capability does, so
no network exchange is involved. -/
theorem call_pack_failure_aborts_before_network (env : Env) (calls : List Call)
    (i : Nat) (e : String)
    (hpack : packCalls env calls 0 = .error (i, e)) :
    ∀ agg, Caller.Call { env with aggregate3 := agg } calls
      = .err calls (packIndexErrMsg i e) := by
  intro agg
  simp only [Caller.Call, packCalls_agg_indep, hpack]

/-- Witness for C6 on one concrete call with a failing abi encoder. -/
theorem call_pack_failure_aborts_before_network_witness :
    Caller.Call { envPackErrW with aggregate3 := fun _ => .error "unused" } [baseCall]
      = .err [baseCall] (packIndexErrMsg 0 "failed to pack m inputs: bad input") :=
  call_pack_failure_aborts_before_network envPackErrW [baseCall] 0
    "failed to pack m inputs: bad input" rfl (fun _ => .error "unused")


/-- C3: for a list of length at least two and a size between one and the
length, the Chunker produces length/size full chunks of exactly the chunk
size in input order, one remainder chunk of length mod size when nonzero,
and concatenating the chunks reproduces the input exactly. -/
theorem chunkInputs_partition_spec (chunkSize : Int) (inputs : List α)
    (h2 : 2 ≤ inputs.length) (h1 : 1 ≤ chunkSize)
    (hle : chunkSize ≤ (inputs.length : Int)) :
    (chunkInputs chunkSize inputs).flatten = inputs ∧
    (chunkInputs chunkSize inputs).length
      = inputs.length / chunkSize.toNat
        + (if inputs.length % chunkSize.toNat = 0 then 0 else 1) ∧
    (∀ i, i < inputs.length / chunkSize.toNat →
      ∃ c, (chunkInputs chunkSize inputs)[i]? = some c ∧ c.length = chunkSize.toNat) ∧
    (inputs.length % chunkSize.toNat ≠ 0 →
      ∃ c, (chunkInputs chunkSize inputs)[inputs.length / chunkSize.toNat]? = some c ∧
        c.length = inputs.length % chunkSize.toNat) := by
  have hk : 0 < chunkSize.toNat := by omega
  have hkn : chunkSize.toNat ≤ inputs.length := by omega
  have h0 : ¬ inputs.length = 0 := by omega
  have hcond : ¬ (chunkSize ≤ 0 ∨ inputs.length < 2 ∨ (inputs.length : Int) < chunkSize) := by
    push_neg
    refine ⟨by omega, by omega, by omega⟩
  have hch : chunkInputs chunkSize inputs
      = (List.range (inputs.length / chunkSize.toNat)).map
          (fun i => (inputs.drop (i * chunkSize.toNat)).take chunkSize.toNat) ++
        (if 0 < inputs.length % chunkSize.toNat then
          [(inputs.drop (inputs.length / chunkSize.toNat * chunkSize.toNat)).take
            (inputs.length % chunkSize.toNat)]
        else []) := by
    unfold chunkInputs
    rw [if_neg h0, if_neg hcond]
  have hlenmap : ((List.range (inputs.length / chunkSize.toNat)).map
      (fun i => (inputs.drop (i * chunkSize.toNat)).take chunkSize.toNat)).length
      = inputs.length / chunkSize.toNat := by
    rw [List.length_map, List.length_range]
  have hdm := Nat.div_add_mod inputs.length chunkSize.toNat
  refine ⟨chunkInputs_flatten chunkSize inputs, ?_, ?_, ?_⟩
  · rw [hch, List.length_append, hlenmap]
    by_cases hm : inputs.length % chunkSize.toNat = 0
    · rw [if_neg (by omega), if_pos hm]
      rfl
    · rw [if_pos (by omega), if_neg hm]
      rfl
  · intro i hi
    refine ⟨(inputs.drop (i * chunkSize.toNat)).take chunkSize.toNat, ?_, ?_⟩
    · rw [hch, List.getElem?_append, hlenmap, if_pos hi, List.getElem?_map,
        List.getElem?_range hi]
      rfl
    · rw [List.length_take, List.length_drop]
      have hmul : (i + 1) * chunkSize.toNat ≤ inputs.length :=
        (Nat.le_div_iff_mul_le hk).mp (by omega)
      have hsucc : (i + 1) * chunkSize.toNat = i * chunkSize.toNat + chunkSize.toNat :=
        Nat.succ_mul i chunkSize.toNat
      omega
  · intro hm
    refine ⟨(inputs.drop (inputs.length / chunkSize.toNat * chunkSize.toNat)).take
      (inputs.length % chunkSize.toNat), ?_, ?_⟩
    · rw [hch, List.getElem?_append_right (by rw [hlenmap]), hlenmap, Nat.sub_self,
        if_pos (by omega)]
      rfl
    · rw [List.length_take, List.length_drop]
      have hcomm : inputs.length / chunkSize.toNat * chunkSize.toNat
          = chunkSize.toNat * (inputs.length / chunkSize.toNat) := Nat.mul_comm _ _
      omega

/-- Witness for C3 at size 2 on a three-element list. -/
theorem chunkInputs_partition_spec_witness :
    (chunkInputs 2 [1, 2, 3]).flatten = [1, 2, 3] ∧
    (∃ c, (chunkInputs 2 [1, 2, 3])[0]? = some c ∧ c.length = 2) ∧
    (∃ c, (chunkInputs 2 [1, 2, 3])[1]? = some c ∧ c.length = 1) := by
  have h := chunkInputs_partition_spec 2 ([1, 2, 3] : List Nat)
    (by decide) (by decide) (by decide)
  refine ⟨h.1, ?_, ?_⟩
  · exact h.2.2.1 0 (by decide)
  · exact h.2.2.2 (by decide)

/-- C4: when the remote aggregation succeeds with one response entry per
unit and every successful entry decodes, the dispatch returns success; a
unit whose success flag is false gets its failure flag set and its output
destination untouched, while the remaining units are still processed. -/
theorem call_marks_failed_units_and_succeeds (env : Env) (calls : List Call)
    (mcs : List Multicall3Call3) (rs : List Result3)
    (hpack : packCalls env calls 0 = .ok mcs)
    (hagg : env.aggregate3 mcs = .ok rs)
    (hlen : rs.length = calls.length)
    (hdec : ∀ (j : Nat) (r : Result3) (c : Call),
      rs[j]? = some r → calls[j]? = some c → r.Success = true →
      ∃ c2, Call.Unpack env { c with Failed := false } r.ReturnData = .ok c2) :
    ∃ l, Caller.Call env calls = .ok l ∧ l.length = calls.length ∧
      (∀ (i : Nat) (r : Result3) (c : Call),
        rs[i]? = some r → calls[i]? = some c → r.Success = false →
        l[i]? = some { c with Failed := true }) ∧
      (∀ (i : Nat) (r : Result3) (c c2 : Call),
        rs[i]? = some r → calls[i]? = some c → r.Success = true →
        Call.Unpack env { c with Failed := false } r.ReturnData = .ok c2 →
        l[i]? = some c2) := by
  obtain ⟨l, hdm, hll, hfr, hun⟩ := demux_ok_of_decodable env rs 0 calls (by omega)
    (by intro j r c hr hc hS
        rw [Nat.zero_add] at hc
        exact hdec j r c hr hc hS)
  refine ⟨l, ?_, hll, ?_, ?_⟩
  · simp only [Caller.Call, hpack, hagg]
    exact hdm
  · intro i r c hr hc hS
    have h := (hun i r c hr (by rw [Nat.zero_add]; exact hc)).1 hS
    rw [Nat.zero_add] at h
    exact h
  · intro i r c c2 hr hc hS hup
    have h := (hun i r c hr (by rw [Nat.zero_add]; exact hc)).2 hS c2 hup
    rw [Nat.zero_add] at h
    exact h

/-- Witness for C4: one unit whose remote entry is flagged failed. -/
theorem call_marks_failed_units_and_succeeds_witness :
    ∃ l, Caller.Call envAllFail [baseCall] = .ok l ∧
      l[0]? = some { baseCall with Failed := true } := by
  obtain ⟨l, hok, _, hfail, _⟩ :=
    call_marks_failed_units_and_succeeds envAllFail [baseCall]
      [{ Target := 7, AllowFailure := false, CallData := [9] }] [⟨false, []⟩]
      rfl rfl rfl
      (by intro j r c h1 h2 h3
          cases j with
          | zero =>
            simp only [List.getElem?_cons_zero, Option.some.injEq] at h1
            rw [← h1] at h3
            cases h3
          | succ n => simp at h1)
  exact ⟨l, hok, hfail 0 ⟨false, []⟩ baseCall rfl rfl rfl⟩

/-- C7: a decode failure at the first successful-but-undecodable index
aborts the remaining iteration with an error naming that index; units
before it keep their applied mutations, the failing unit keeps its output
destination, and units after it are untouched. -/
theorem call_unpack_failure_aborts_with_index (env : Env) (calls : List Call)
    (mcs : List Multicall3Call3) (rs : List Result3) (j : Nat) (r : Result3) (c : Call)
    (m : String)
    (hpack : packCalls env calls 0 = .ok mcs)
    (hagg : env.aggregate3 mcs = .ok rs)
    (hlen : rs.length ≤ calls.length)
    (hr : rs[j]? = some r) (hS : r.Success = true) (hc : calls[j]? = some c)
    (hup : Call.Unpack env { c with Failed := false } r.ReturnData = .err m)
    (hprev : ∀ (j2 : Nat) (r2 : Result3) (u : Call),
      j2 < j → rs[j2]? = some r2 → calls[j2]? = some u → r2.Success = true →
      ∃ u2, Call.Unpack env { u with Failed := false } r2.ReturnData = .ok u2) :
    ∃ l, Caller.Call env calls = .err l (unpackIndexErrMsg j m) ∧
      l.length = calls.length ∧
      (∀ j2, j < j2 → l[j2]? = calls[j2]?) ∧
      l[j]? = some { c with Failed := false } ∧
      (∀ (j2 : Nat) (r2 : Result3) (u : Call),
        j2 < j → rs[j2]? = some r2 → calls[j2]? = some u →
        (r2.Success = false → l[j2]? = some { u with Failed := true }) ∧
        (r2.Success = true → ∀ u2,
          Call.Unpack env { u with Failed := false } r2.ReturnData = .ok u2 →
          l[j2]? = some u2)) := by
  obtain ⟨l, hdm, hll, hfr, hfail, hun⟩ := demux_err_at env rs j 0 calls r c m (by omega)
    hr hS (by rw [Nat.zero_add]; exact hc) hup
    (by intro j2 r2 u hj2 hr2 hu hS2
        rw [Nat.zero_add] at hu
        exact hprev j2 r2 u hj2 hr2 hu hS2)
  rw [Nat.zero_add] at hdm hfail
  refine ⟨l, ?_, hll, ?_, hfail, ?_⟩
  · simp only [Caller.Call, hpack, hagg]
    exact hdm
  · intro j2 hj2
    exact hfr j2 (by omega)
  · intro j2 r2 u hj2 hr2 hu
    have h := hun j2 r2 u hj2 hr2 (by rw [Nat.zero_add]; exact hu)
    rw [Nat.zero_add] at h
    exact h

/-- Witness for C7: one unit whose decode fails at index 0. -/
theorem call_unpack_failure_aborts_with_index_witness :
    ∃ l, Caller.Call envDecodeErr [baseCall]
        = .err l (unpackIndexErrMsg 0 "failed to unpack m outputs: bad") ∧
      l[0]? = some { baseCall with Failed := false } := by
  obtain ⟨l, herr, _, _, hfail, _⟩ :=
    call_unpack_failure_aborts_with_index envDecodeErr [baseCall]
      [{ Target := 7, AllowFailure := false, CallData := [9] }] [⟨true, []⟩]
      0 ⟨true, []⟩ baseCall "failed to unpack m outputs: bad"
      rfl rfl (by decide) rfl rfl rfl (by decide)
      (by intro j2 r2 u hj2 _ _ _
          exact absurd hj2 (by omega))
  exact ⟨l, herr, hfail⟩

/-- C10: the dispatch never checks that the response length matches the
unit list; with at most one response entry per unit the index access in the
demultiplexing loop stays in bounds, with fewer entries the trailing units
are silently left untouched with no error, and with more entries than units
the loop panics out of bounds. -/
theorem call_no_length_check_demux :
    (∀ (env : Env) (calls : List Call) (rs : List Result3),
      rs.length ≤ calls.length → demux env calls rs 0 ≠ .crash callsRangePanicMsg) ∧
    (∀ (env : Env) (calls l : List Call) (rs : List Result3),
      demux env calls rs 0 = .ok l →
      ∀ j, rs.length ≤ j → l[j]? = calls[j]?) ∧
    Caller.Call envUnderflow [baseCall, callB]
      = .ok [{ baseCall with Failed := true }, callB] ∧
    Caller.Call envOverflow [baseCall] = .crash callsRangePanicMsg := by
  refine ⟨?_, ?_, ?_, ?_⟩
  · intro env calls rs h
    exact demux_no_oob env rs 0 calls (by omega)
  · intro env calls l rs h j hj
    exact demux_ok_frame env rs 0 calls l h j (by omega)
  · decide
  · decide

/-- Witness for C10 instantiating the quantified clauses. -/
theorem call_no_length_check_demux_witness :
    demux envHappy [baseCall] [⟨false, []⟩] 0 ≠ .crash callsRangePanicMsg ∧
    [{ baseCall with Failed := true }, callB][1]? = [baseCall, callB][1]? := by
  constructor
  · exact call_no_length_check_demux.1 envHappy [baseCall] [⟨false, []⟩] (by decide)
  · exact call_no_length_check_demux.2.1 envHappy [baseCall, callB]
      [{ baseCall with Failed := true }, callB] [⟨false, []⟩] (by decide) 1 (by decide)

/-- C9: when every chunk dispatch succeeds, the chunked dispatch returns
the concatenation of the chunk results in chunk order, and the final
sequence has the same length as the input with the unit at every position
the processed image of the input unit at that position. -/
theorem callChunked_success_concatenates (env : Env) (chunkSize : Int) (cooldown : Nat)
    (calls : List Call) (results : List (List Call))
    (h : List.Forall₂ (fun ck l => Caller.Call env ck = .ok l)
      (chunkInputs chunkSize calls) results) :
    Caller.CallChunked env chunkSize cooldown calls = .ok results.flatten ∧
    results.flatten.length = calls.length ∧
    (∀ (j : Nat) (u u2 : Call),
      calls[j]? = some u → results.flatten[j]? = some u2 → sameIdentity u u2) := by
  have hloop := chunkedLoop_ok_results env (chunkInputs chunkSize calls) results h 0 []
  have hps : pointwiseSame calls results.flatten := by
    have h2 := forall2_ok_pointwiseSame env (chunkInputs chunkSize calls) results h
    rw [chunkInputs_flatten] at h2
    exact h2
  refine ⟨?_, hps.1.symm, hps.2⟩
  unfold Caller.CallChunked
  simpa using hloop

/-- Witness for C9: three units, chunk size two, all successful. -/
theorem callChunked_success_concatenates_witness :
    Caller.CallChunked envHappy 2 0 [baseCall, callB, callC]
      = .ok [{ baseCall with Outputs := .struct [(0, 42)] },
             { callB with Outputs := .struct [(0, 42)] },
             { callC with Outputs := .struct [(0, 42)] }] := by
  have h := callChunked_success_concatenates envHappy 2 0 [baseCall, callB, callC]
    [[{ baseCall with Outputs := .struct [(0, 42)] },
      { callB with Outputs := .struct [(0, 42)] }],
     [{ callC with Outputs := .struct [(0, 42)] }]]
    (List.Forall₂.cons (by decide) (List.Forall₂.cons (by decide) List.Forall₂.nil))
  simpa using h.1

/-- C2 counterexample: with three units and chunk size two, the first chunk
succeeds and marks its two units failed in place; when the second chunk
then fails, the returned list still carries those mutations, so it is not
the unmodified original list. -/
theorem callChunked_error_mutation_counterexample :
    Caller.CallChunked envChunkTrap 2 0 [baseCall, callB, callC]
      = .err [{ baseCall with Failed := true }, { callB with Failed := true }, callC]
          (chunkErrMsg 1 (aggErrMsg "boom")) ∧
    [{ baseCall with Failed := true }, { callB with Failed := true }, callC]
      ≠ [baseCall, callB, callC] := by
  exact ⟨by decide, by decide⟩

/-- C2 as amended: when the first failing chunk has index i, the chunked
dispatch aborts there and returns the full unit list, same units in the
same order, with an error naming chunk index i; however, the units are
mutated in place, so units of previously successful chunks keep their
applied results instead of being discarded. -/
theorem callChunked_error_aborts_with_chunk_index (env : Env) (chunkSize : Int)
    (cooldown : Nat) (calls : List Call) (i : Nat) (ck l : List Call) (m : String)
    (hck : (chunkInputs chunkSize calls)[i]? = some ck)
    (hprev : ∀ j ck2, j < i → (chunkInputs chunkSize calls)[j]? = some ck2 →
      ∃ l2, Caller.Call env ck2 = .ok l2)
    (herr : Caller.Call env ck = .err l m) :
    ∃ L, Caller.CallChunked env chunkSize cooldown calls = .err L (chunkErrMsg i m) ∧
      L.length = calls.length ∧
      (∀ (j : Nat) (u u2 : Call),
        calls[j]? = some u → L[j]? = some u2 → sameIdentity u u2) := by
  obtain ⟨L, hloop, hps⟩ :=
    chunkedLoop_err_at env (chunkInputs chunkSize calls) i ck l m hck hprev herr 0 []
  rw [chunkInputs_flatten] at hps
  refine ⟨L, ?_, hps.1.symm, hps.2⟩
  unfold Caller.CallChunked
  simpa using hloop

/-- Witness for the amended C2 on the three-unit trap scenario. -/
theorem callChunked_error_aborts_with_chunk_index_witness :
    ∃ L, Caller.CallChunked envChunkTrap 2 0 [baseCall, callB, callC]
        = .err L (chunkErrMsg 1 (aggErrMsg "boom")) ∧ L.length = 3 := by
  obtain ⟨L, h1, h2, _⟩ :=
    callChunked_error_aborts_with_chunk_index envChunkTrap 2 0 [baseCall, callB, callC]
      1 [callC] [callC] (aggErrMsg "boom")
      (by decide)
      (by intro j ck2 hj hck2
          cases j with
          | zero =>
            refine ⟨[{ baseCall with Failed := true }, { callB with Failed := true }], ?_⟩
            have : ck2 = [baseCall, callB] := by
              have hc : (chunkInputs 2 [baseCall, callB, callC])[0]?
                  = some [baseCall, callB] := by decide
              rw [hc] at hck2
              injection hck2 with h
              exact h.symm
            rw [this]
            decide
          | succ n => exact absurd hj (by omega))
      (by decide)
  exact ⟨L, h1, h2⟩

/-- C1 counterexample: a destination with two fields against one decoded
value makes Unpack panic out of range instead of returning an error, and a
destination with one field against two decoded values succeeds silently,
ignoring the excess decoded value. -/
theorem unpack_mismatch_counterexample :
    Call.Unpack envOneOut twoFieldCall [] = .crash outRangePanicMsg ∧
    Call.Unpack envTwoOut baseCall [] = .ok { baseCall with Outputs := .struct [(0, 7)] } := by
  exact ⟨by decide, by decide⟩

/-- C1 as amended: Unpack reports a descriptive error only for a non-struct
destination or an abi decode failure; once decoding succeeds, fields are
assigned positionally, so with convertible values a destination with more
fields than decoded values panics out of range, and a destination with at
most as many fields as decoded values succeeds, silently ignoring any
excess decoded values. -/
theorem unpack_mismatch_behavior :
    (∀ (env : Env) (call : Call) (b : Bytes), call.Outputs = .notStruct →
      Call.Unpack env call b = .err "outputs type is not a struct") ∧
    (∀ (env : Env) (call : Call) (b : Bytes) (fields : List (FieldType × Value)) (e : String),
      call.Outputs = .struct fields →
      env.abiUnpack call.Contract.abiId call.Method b = .error e →
      Call.Unpack env call b
        = .err ("failed to unpack " ++ call.Method ++ " outputs: " ++ e)) ∧
    (∀ (env : Env) (call : Call) (b : Bytes) (fields : List (FieldType × Value))
        (out : List Value),
      call.Outputs = .struct fields →
      env.abiUnpack call.Contract.abiId call.Method b = .ok out →
      (∀ t v, (env.convertType t v).isSome = true) →
      (out.length < fields.length → Call.Unpack env call b = .crash outRangePanicMsg) ∧
      (fields.length ≤ out.length → ∃ nf, Call.Unpack env call b
        = .ok { call with Outputs := .struct nf } ∧ nf.length = fields.length)) := by
  refine ⟨?_, ?_, ?_⟩
  · intro env call b ho
    simp [Call.Unpack, ho]
  · intro env call b fields e ho hu
    simp [Call.Unpack, ho, hu]
  · intro env call b fields out ho hu hconv
    constructor
    · intro hlt
      simp [Call.Unpack, ho, hu, assignFields_short env hconv fields out hlt]
    · intro hle
      obtain ⟨nf, hnf, hlen⟩ := assignFields_long env hconv fields out hle
      exact ⟨nf, by simp [Call.Unpack, ho, hu, hnf], hlen⟩

/-- Witness for the amended C1 covering its four behaviors. -/
theorem unpack_mismatch_behavior_witness :
    Call.Unpack envHappy { baseCall with Outputs := .notStruct } []
      = .err "outputs type is not a struct" ∧
    Call.Unpack envDecodeErr baseCall [] = .err "failed to unpack m outputs: bad" ∧
    Call.Unpack envOneOut twoFieldCall [] = .crash outRangePanicMsg ∧
    (∃ nf, Call.Unpack envTwoOut baseCall []
      = .ok { baseCall with Outputs := .struct nf } ∧ nf.length = 1) := by
  refine ⟨?_, ?_, ?_, ?_⟩
  · exact unpack_mismatch_behavior.1 envHappy { baseCall with Outputs := .notStruct } [] rfl
  · exact unpack_mismatch_behavior.2.1 envDecodeErr baseCall [] [(0, 0)] "bad" rfl rfl
  · exact (unpack_mismatch_behavior.2.2 envOneOut twoFieldCall [] [(0, 0), (1, 0)] [7]
      rfl rfl (fun _ _ => rfl)).1 (by decide)
  · exact (unpack_mismatch_behavior.2.2 envTwoOut baseCall [] [(0, 0)] [7, 8]
      rfl rfl (fun _ _ => rfl)).2 (by decide)

end Multicall
